import Mathlib

/-!
# A verification of the `just.simulate` discrete-event simulation kernel

Shallow embedding of the event-driven delivery-marketplace simulator:
the time-ordered event queue with FIFO tie-breaking, the `Env`
publish/subscribe bus and its run loop, agent registration, the
`RandomAssigner`, the `TimeDist` duration sampler, the courier
assignment state machine, and the `DeliveryTime` /
`NumberOfOrdersDelivered` metrics.

The kernel implementation (`just.simulate.env.Env`, `Registrable`,
`TimeDist`, `RandomAssigner`, the agents and metrics) is not shipped in
this repository snapshot — only the tutorial notebooks that drive it
are.  Definitions below are therefore modelled from the design
specification, constrained to reproduce the recorded tutorial runs
(the cat/dog interaction of tutorial page 1 in particular, which is
replayed and checked exactly).
-/

namespace JustSimulate

/-- An event on the bus: a name, a simulated timestamp, a payload and
the sequence number assigned by the scheduler at insertion time.
`α` is the payload type. -/
structure Event (α : Type) where
  name : String
  timestamp : Int
  payload : α
  seq : Nat

/-- The scheduler's ordering key: lexicographic on
`(timestamp, sequence_number)`. -/
def keyLE {α : Type} (a b : Event α) : Prop :=
  a.timestamp < b.timestamp ∨ (a.timestamp = b.timestamp ∧ a.seq ≤ b.seq)

instance {α : Type} (a b : Event α) : Decidable (keyLE a b) := by
  unfold keyLE; exact inferInstance

/-- Boolean strict comparison on `(timestamp, sequence_number)` keys,
used by `pop_next` to locate the minimum-keyed event. -/
def keyLtB {α : Type} (a b : Event α) : Bool :=
  a.timestamp < b.timestamp || (a.timestamp == b.timestamp && a.seq < b.seq)

/-- Select the minimum-keyed event among `e :: es`, returning it with
the remaining events. -/
def popMin {α : Type} : Event α → List (Event α) → Event α × List (Event α)
  | e, [] => (e, [])
  | e, x :: xs =>
    if keyLtB (popMin x xs).1 e then ((popMin x xs).1, e :: (popMin x xs).2)
    else (e, x :: xs)

/-- Modelled from the spec: `pop_next()` of the EventQueue/Scheduler
(implementation not under `src/`): removes and returns the
minimum-`(timestamp, sequence_number)`-keyed event together with the
remaining queue, or signals empty with `none`. -/
def pop_next {α : Type} : List (Event α) → Option (Event α × List (Event α))
  | [] => none
  | e :: es => some (popMin e es)

/-- The Environment (bus): owns the event queue, the monotone sequence
counter, the current simulated time, the agent registry (insertion
order preserved) and the subscriptions (event name, subscriber id,
handler).  A handler consumes the payload and either fails or returns
the list of `(event_name, payload, delay)` publish requests it makes.
`trace` records the dispatched `(event_name, payload)` pairs. -/
structure Env (α : Type) where
  queue : List (Event α)
  nextSeq : Nat
  now : Int
  agents : List String
  subs : List (String × String × (α → Except String (List (String × α × Int))))
  trace : List (String × α)

/-- The empty environment: fresh queue, counter at zero, clock at the
epoch, nothing registered. -/
def Env.empty (α : Type) : Env α :=
  { queue := [], nextSeq := 0, now := 0, agents := [], subs := [], trace := [] }

/-- Modelled from the spec: `schedule(event)` (implementation not under
`src/`): inserts an event keyed by `(timestamp, sequence_number)`,
with the sequence number taken from the monotonically increasing
counter at insertion time. -/
def Env.schedule {α : Type} (env : Env α) (name : String) (payload : α)
    (timestamp : Int) : Env α :=
  { env with
    queue := env.queue ++ [⟨name, timestamp, payload, env.nextSeq⟩]
    nextSeq := env.nextSeq + 1 }

/-- Modelled from the spec: `Env.publish(event_name, payload, delay=0)`
(implementation not under `src/`): rejects a negative delay as a fatal
configuration error, otherwise computes
`timestamp = current_simulated_time + delay` and calls `schedule`.
The event is enqueued, never executed inline. -/
def Env.publish {α : Type} (env : Env α) (name : String) (payload : α)
    (delay : Int := 0) : Except String (Env α) :=
  if delay < 0 then .error "negative delay is a configuration error"
  else .ok (env.schedule name payload (env.now + delay))

/-- An agent as the bus sees it (the `Registrable` interface): a stable
identity and the event-name → handler bindings its `subscribe()`
declares. -/
structure Agent (α : Type) where
  id : String
  subscriptions : List (String × (α → Except String (List (String × α × Int))))

/-- Modelled from the spec: `Env.register(agent)` (implementation not
under `src/`): rejects an already-registered identity as a fatal
configuration error; otherwise stores the agent and invokes its
`subscribe()` exactly once, appending its declared bindings. -/
def Env.register {α : Type} (env : Env α) (a : Agent α) :
    Except String (Env α) :=
  if env.agents.contains a.id then
    .error "re-registering an agent id is a configuration error"
  else
    .ok { env with
          agents := env.agents ++ [a.id]
          subs := env.subs ++ a.subscriptions.map (fun s => (s.1, a.id, s.2)) }

/-- The handlers subscribed to an event name, in subscription
registration order. -/
def Env.handlersFor {α : Type} (env : Env α) (name : String) :
    List (α → Except String (List (String × α × Int))) :=
  env.subs.filterMap (fun s => if s.1 == name then some s.2.2 else none)

/-- Apply a list of publish requests in order (each goes through
`publish`, so each is enqueued, never dispatched inline). -/
def Env.applyPubs {α : Type} :
    Env α → List (String × α × Int) → Except String (Env α)
  | env, [] => .ok env
  | env, (n, p, d) :: rest =>
    match env.publish n p d with
    | .error msg => .error msg
    | .ok env' => env'.applyPubs rest

/-- Invoke a list of handlers in order on a payload; each handler's
publish requests are enqueued before the next handler runs.  A handler
failure aborts (fatal). -/
def Env.runHandlers {α : Type} :
    Env α → List (α → Except String (List (String × α × Int))) → α →
    Except String (Env α)
  | env, [], _ => .ok env
  | env, h :: hs, p =>
    match h p with
    | .error msg => .error msg
    | .ok reqs =>
      match env.applyPubs reqs with
      | .error msg => .error msg
      | .ok env' => env'.runHandlers hs p

/-- One iteration of the run loop: pop the minimum-keyed event (empty
queue means normal completion, signalled by `none`), advance the clock
to its timestamp, record the dispatched pair, and invoke every
subscribed handler in registration order. -/
def Env.runStep {α : Type} (env : Env α) :
    Except String (Option (Env α)) :=
  match pop_next env.queue with
  | none => .ok none
  | some (e, rest) =>
    let env1 : Env α :=
      { env with
        queue := rest
        now := e.timestamp
        trace := env.trace ++ [(e.name, e.payload)] }
    match env1.runHandlers (env.handlersFor e.name) e.payload with
    | .error msg => .error msg
    | .ok env2 => .ok (some env2)

/-- Modelled from the spec: `Env.run()` (implementation not under
`src/`): the run loop pops and dispatches events until the queue is
empty; exhaustion of the queue is normal completion, a handler failure
is fatal.  `fuel` bounds the number of iterations (the driver's
maximum-event-count hard stop). -/
def Env.run {α : Type} : Nat → Env α → Except String (Env α)
  | 0, env => .ok env
  | fuel + 1, env =>
    match env.runStep with
    | .error msg => .error msg
    | .ok none => .ok env
    | .ok (some env') => env'.run fuel

/-- Drain a queue by repeatedly popping the minimum-keyed event, with
explicit fuel. -/
def drainFuel {α : Type} : Nat → List (Event α) → List (Event α)
  | 0, _ => []
  | fuel + 1, q =>
    match pop_next q with
    | none => []
    | some (e, rest) => e :: drainFuel fuel rest

/-- The dispatch order of a queue: the sequence of events obtained by
popping until empty. -/
def drain {α : Type} (q : List (Event α)) : List (Event α) :=
  drainFuel q.length q

/-- Schedule a list of `(name, payload, timestamp)` requests in order. -/
def scheduleAll {α : Type} (env : Env α) :
    List (String × α × Int) → Env α
  | [] => env
  | (n, p, t) :: rest => scheduleAll (env.schedule n p t) rest

/-! ## The tutorial page 1 scenario: cat and dog

Payloads are the `name` field the notebook attaches.  `Cat.meow`
publishes `Meow`; the dog's `meow_handler` reacts by publishing
`Woof`; the cat's `woof_handler` publishes nothing. -/

/-- The cat `Grumpy`: subscribes `woof_handler` to `Woof` (which
publishes nothing, it only runs away). -/
def catAgent : Agent String where
  id := "Grumpy"
  subscriptions := [("Woof", fun _ => .ok [])]

/-- The dog `Pavlov`: subscribes `meow_handler` to `Meow`, which
answers by publishing `Woof` with its name, delay zero. -/
def dogAgent : Agent String where
  id := "Pavlov"
  subscriptions := [("Meow", fun _ => .ok [("Woof", "Pavlov", 0)])]

/-- The environment of tutorial page 1 after `env.register(cat)` and
`env.register(dog)`. -/
def tutorialEnv : Env String :=
  match (Env.empty String).register catAgent with
  | .error _ => Env.empty String
  | .ok e1 =>
    match e1.register dogAgent with
    | .error _ => Env.empty String
    | .ok e2 => e2

/-! ## TimeDist -/

/-- The simulation time units a `TimeDist` can be configured with. -/
inductive TimeUnit
  | seconds
  | minutes
  | hours
deriving DecidableEq

/-- Seconds per unit. -/
def TimeUnit.factor : TimeUnit → ℚ
  | .seconds => 1
  | .minutes => 60
  | .hours => 3600

/-- A `TimeDist`: a distribution family name (any family of the
backend, e.g. `norm`), its parameters, and the time unit of the
draws. -/
structure TimeDist where
  family : String
  params : List ℚ
  unit : TimeUnit

/-- Modelled from the spec: `TimeDist.sample()` (implementation not
under `src/`).  The backend draw (`raw`, produced by the out-of-scope
sampling collaborator from the family, parameters and random source)
is clamped to zero from below and converted to the simulation time
unit, so a draw is never a negative duration whatever the family. -/
def TimeDist.sample (d : TimeDist) (raw : ℚ) : ℚ :=
  d.unit.factor * max raw 0

/-! ## Orders, couriers and the RandomAssigner -/

/-- Lifecycle states of an order. -/
inductive OrderStatus
  | created
  | assigned
  | pickedUp
  | delivered
  | rejected
deriving DecidableEq

/-- An order: its id, lifecycle state and the courier currently
holding it, if any. -/
structure Order where
  oid : String
  status : OrderStatus
  courier : Option String
deriving DecidableEq

/-- The ids of the couriers marked available in a snapshot of
`(courier_id, available)` pairs. -/
def availablePool (couriers : List (String × Bool)) : List String :=
  (couriers.filter (fun c => c.2)).map (fun c => c.1)

/-- Pick an element of a pool uniformly: index the pool by the random
draw modulo its size; an empty pool yields `none`. -/
def pickUniform (r : Nat) (pool : List String) : Option String :=
  if pool.isEmpty then none else pool[r % pool.length]?

/-- Modelled from the spec: `RandomAssigner.assign(order,
available_couriers)` (implementation not under `src/`): selects a
courier uniformly at random among those marked available,
deterministically given the random draw `r`; `none` when the pool is
empty.  The order itself does not influence the baseline choice. -/
def RandomAssigner.assign (r : Nat) (_order : Order)
    (couriers : List (String × Bool)) : Option String :=
  pickUniform r (availablePool couriers)

/-! ## The assignment/delivery state machine

Modelled from the spec: the Courier/Assigner handlers (implementation
not under `src/`).  The state tracks the courier fleet, each courier's
`available` flag and the orders; each lifecycle event is processed
atomically, assignment and availability-flip in one step. -/

/-- State observed at a simulated instant: the courier fleet, each
courier's `available` flag, and the orders so far. -/
structure SimState where
  couriers : List String
  avail : String → Bool
  orders : List Order

/-- The first order with the given id, if any. -/
def findOrder (s : SimState) (oid : String) : Option Order :=
  s.orders.find? (fun o => o.oid == oid)

/-- Rewrite the first order with the given id through `f`. -/
def updateOrder : List Order → String → (Order → Order) → List Order
  | [], _, _ => []
  | o :: os, oid, f =>
    if o.oid == oid then f o :: os else o :: updateOrder os oid f

/-- The availability snapshot handed to the assigner. -/
def SimState.snapshot (s : SimState) : List (String × Bool) :=
  s.couriers.map (fun c => (c, s.avail c))

/-- The order lifecycle events the machine reacts to; `orderReady`
carries the random draw the assigner consumes. -/
inductive DEvent
  | orderPlaced (oid : String)
  | orderReady (oid : String) (r : Nat)
  | pickedUp (oid : String)
  | orderDelivered (oid : String)

/-- One dispatch of a lifecycle event.  `orderPlaced` creates the
order; `orderReady` asks the `RandomAssigner` for an available courier
and, atomically in the same step, marks the chosen courier unavailable
(rejecting the order when the pool is empty); `pickedUp` advances the
state; `orderDelivered` completes the order and flips its courier's
`available` flag back to true. -/
def step (s : SimState) : DEvent → SimState
  | .orderPlaced oid =>
    if (findOrder s oid).isSome then s
    else { s with orders := s.orders ++ [⟨oid, .created, none⟩] }
  | .orderReady oid r =>
    match findOrder s oid with
    | none => s
    | some o =>
      if o.status = .created then
        match RandomAssigner.assign r o s.snapshot with
        | some c =>
          { s with
            orders := updateOrder s.orders oid
              (fun x => { x with status := .assigned, courier := some c })
            avail := fun x => if x = c then false else s.avail x }
        | none =>
          { s with
            orders := updateOrder s.orders oid
              (fun x => { x with status := .rejected }) }
      else s
  | .pickedUp oid =>
    match findOrder s oid with
    | none => s
    | some o =>
      if o.status = .assigned then
        { s with
          orders := updateOrder s.orders oid
            (fun x => { x with status := .pickedUp }) }
      else s
  | .orderDelivered oid =>
    match findOrder s oid with
    | none => s
    | some o =>
      if o.status = .pickedUp then
        { s with
          orders := updateOrder s.orders oid
            (fun x => { x with status := .delivered })
          avail :=
            match o.courier with
            | some c => fun x => if x = c then true else s.avail x
            | none => s.avail }
      else s

/-- An order is unresolved-held: assigned or picked up but not yet
delivered. -/
def isActive (o : Order) : Bool :=
  o.status == .assigned || o.status == .pickedUp

/-- Courier `c` currently holds order `o`. -/
def heldBy (c : String) (o : Order) : Bool :=
  isActive o && o.courier == some c

/-- How many unresolved orders courier `c` holds. -/
def activeCount (s : SimState) (c : String) : Nat :=
  s.orders.countP (heldBy c)

/-- The courier-exclusivity invariant: an available courier holds no
unresolved order, and no courier holds two. -/
def Inv (s : SimState) : Prop :=
  (∀ c, s.avail c = true → activeCount s c = 0) ∧
    (∀ c, activeCount s c ≤ 1)

/-- The initial state of a run: the fleet all available, no orders. -/
def initState (cs : List String) : SimState :=
  { couriers := cs, avail := fun _ => true, orders := [] }

/-! ## Metrics -/

/-- The lifecycle events a metrics observer sees; an `orderDelivered`
carries the order's creation and delivery timestamps. -/
inductive MEvent
  | orderDelivered (created_at delivered_at : ℚ)
  | other (name : String)

/-- Modelled from the spec: the `DeliveryTime` metric (implementation
not under `src/`): accumulates `(delivered_at - created_at)`
samples. -/
structure DeliveryTime where
  samples : List ℚ

/-- Modelled from the spec: the `NumberOfOrdersDelivered` metric
(implementation not under `src/`): a counter incremented on each
`OrderDelivered`. -/
structure NumberOfOrdersDelivered where
  count : Nat

/-- `DeliveryTime` observes one event. -/
def DeliveryTime.handle (m : DeliveryTime) : MEvent → DeliveryTime
  | .orderDelivered c d => ⟨m.samples ++ [d - c]⟩
  | .other _ => m

/-- The value `DeliveryTime` reports: the mean of its samples. -/
def DeliveryTime.result (m : DeliveryTime) : ℚ :=
  m.samples.sum / m.samples.length

/-- `NumberOfOrdersDelivered` observes one event. -/
def NumberOfOrdersDelivered.handle (m : NumberOfOrdersDelivered) :
    MEvent → NumberOfOrdersDelivered
  | .orderDelivered _ _ => ⟨m.count + 1⟩
  | .other _ => m

/-- The `(delivered_at - created_at)` sample an event contributes, if
any. -/
def deliverySample : MEvent → Option ℚ
  | .orderDelivered c d => some (d - c)
  | .other _ => none

/-- Whether an event is an `OrderDelivered`. -/
def isOrderDelivered : MEvent → Bool
  | .orderDelivered _ _ => true
  | .other _ => false

/-- Modelled from the spec: `Reporting.get_results()` (implementation
not under `src/`): the mapping from metric name to reported value. -/
def get_results (dt : DeliveryTime) (n : NumberOfOrdersDelivered) :
    List (String × ℚ) :=
  [("DeliveryTime", dt.result), ("NumberOfOrdersDelivered", (n.count : ℚ))]

/-! ## Concrete runs used to exercise the theorems -/

/-- The tutorial environment right after `cat.meow()`: the `Meow`
event published before `env.run()` is called. -/
def seededEnv : Env String :=
  match tutorialEnv.publish "Meow" "Grumpy" 0 with
  | .ok e => e
  | .error _ => tutorialEnv

/-- The tutorial environment after one iteration of the run loop
(dispatch of `Meow`). -/
def steppedEnv : Env String :=
  match seededEnv.runStep with
  | .ok (some e) => e
  | _ => seededEnv

/-- The tutorial environment after `list(env.run())` drains the
queue. -/
def finalEnv : Env String :=
  match seededEnv.run 10 with
  | .ok e => e
  | .error _ => seededEnv

/-- A sample event at timestamp 5, sequence number 0. -/
def evA : Event String := ⟨"a", 5, "pa", 0⟩

/-- A sample event at timestamp 3, sequence number 1. -/
def evB : Event String := ⟨"b", 3, "pb", 1⟩

/-- A sample event tied with `evB` on timestamp, published later
(sequence number 2). -/
def evC : Event String := ⟨"c", 3, "pc", 2⟩

/-- A sample freshly created order. -/
def ordEx : Order := ⟨"o1", OrderStatus.created, none⟩

/-! ## Scheduler ordering lemmas -/

theorem keyLE_trans {α : Type} {a b c : Event α} (hab : keyLE a b)
    (hbc : keyLE b c) : keyLE a c := by
  unfold keyLE at *
  rcases hab with h | ⟨h1, h2⟩ <;> rcases hbc with h' | ⟨h1', h2'⟩ <;>
    [left; left; left; right] <;> omega

theorem keyLtB_eq_false_iff {α : Type} {a b : Event α} :
    keyLtB a b = false ↔ keyLE b a := by
  simp only [keyLtB, keyLE, Bool.or_eq_false_iff, Bool.and_eq_false_iff,
    decide_eq_false_iff_not, not_lt, beq_eq_false_iff_ne, ne_eq]
  omega

theorem keyLtB_eq_true_keyLE {α : Type} {a b : Event α}
    (h : keyLtB a b = true) : keyLE a b := by
  simp only [keyLtB, Bool.or_eq_true, Bool.and_eq_true, decide_eq_true_eq,
    beq_iff_eq] at h
  unfold keyLE
  omega

theorem popMin_perm {α : Type} (e : Event α) (es : List (Event α)) :
    (e :: es).Perm ((popMin e es).1 :: (popMin e es).2) := by
  induction es generalizing e with
  | nil => simp [popMin]
  | cons x xs ih =>
    simp only [popMin]
    cases h : keyLtB (popMin x xs).1 e with
    | true =>
      simp only [h, if_true]
      exact ((ih x).cons e).trans (List.Perm.swap _ _ _)
    | false =>
      simp [h]

theorem popMin_min {α : Type} (e : Event α) (es : List (Event α)) :
    ∀ y ∈ (popMin e es).2, keyLE (popMin e es).1 y := by
  induction es generalizing e with
  | nil => simp [popMin]
  | cons x xs ih =>
    simp only [popMin]
    cases h : keyLtB (popMin x xs).1 e with
    | true =>
      simp only [h, if_true]
      intro y hy
      rcases List.mem_cons.mp hy with rfl | hy
      · exact keyLtB_eq_true_keyLE h
      · exact ih x y hy
    | false =>
      simp only [h, Bool.false_eq_true, if_false]
      have hem : keyLE e (popMin x xs).1 := keyLtB_eq_false_iff.mp h
      intro y hy
      have : y ∈ (popMin x xs).1 :: (popMin x xs).2 :=
        (popMin_perm x xs).mem_iff.mp hy
      rcases List.mem_cons.mp this with rfl | hyr
      · exact hem
      · exact keyLE_trans hem (ih x y hyr)

theorem pop_next_eq_none_iff {α : Type} {q : List (Event α)} :
    pop_next q = none ↔ q = [] := by
  cases q <;> simp [pop_next]

theorem pop_next_perm {α : Type} {q : List (Event α)} {e : Event α}
    {rest : List (Event α)} (h : pop_next q = some (e, rest)) :
    q.Perm (e :: rest) := by
  cases q with
  | nil => simp [pop_next] at h
  | cons x xs =>
    simp only [pop_next, Option.some.injEq] at h
    have := popMin_perm x xs
    rw [h] at this
    exact this

theorem pop_next_min {α : Type} {q : List (Event α)} {e : Event α}
    {rest : List (Event α)} (h : pop_next q = some (e, rest)) :
    ∀ y ∈ rest, keyLE e y := by
  cases q with
  | nil => simp [pop_next] at h
  | cons x xs =>
    simp only [pop_next, Option.some.injEq] at h
    have := popMin_min x xs
    rw [h] at this
    exact this

theorem pop_next_length {α : Type} {q : List (Event α)} {e : Event α}
    {rest : List (Event α)} (h : pop_next q = some (e, rest)) :
    q.length = rest.length + 1 := by
  simpa using (pop_next_perm h).length_eq

theorem drainFuel_perm {α : Type} (fuel : Nat) (q : List (Event α))
    (hf : q.length ≤ fuel) : (drainFuel fuel q).Perm q := by
  induction fuel generalizing q with
  | zero =>
    have : q = [] := List.length_eq_zero.mp (Nat.le_zero.mp hf)
    subst this
    simp [drainFuel]
  | succ n ih =>
    simp only [drainFuel]
    cases h : pop_next q with
    | none =>
      rw [pop_next_eq_none_iff.mp h]
    | some p =>
      obtain ⟨e, rest⟩ := p
      have hlen := pop_next_length h
      have : (drainFuel n rest).Perm rest := ih rest (by omega)
      exact ((this.cons e).trans (pop_next_perm h).symm)

theorem drainFuel_sorted {α : Type} (fuel : Nat) (q : List (Event α))
    (hf : q.length ≤ fuel) : List.Sorted keyLE (drainFuel fuel q) := by
  induction fuel generalizing q with
  | zero => simp [drainFuel]
  | succ n ih =>
    simp only [drainFuel]
    cases h : pop_next q with
    | none => simp
    | some p =>
      obtain ⟨e, rest⟩ := p
      have hlen := pop_next_length h
      rw [List.sorted_cons]
      refine ⟨?_, ih rest (by omega)⟩
      intro b hb
      have : b ∈ rest := (drainFuel_perm n rest (by omega)).mem_iff.mp hb
      exact pop_next_min h b this

theorem drain_perm {α : Type} (q : List (Event α)) : (drain q).Perm q :=
  drainFuel_perm q.length q le_rfl

theorem drain_sorted {α : Type} (q : List (Event α)) :
    List.Sorted keyLE (drain q) :=
  drainFuel_sorted q.length q le_rfl

theorem scheduleAll_seq {α : Type} (reqs : List (String × α × Int))
    (env : Env α) :
    (scheduleAll env reqs).queue.map Event.seq =
      env.queue.map Event.seq ++ List.range' env.nextSeq reqs.length := by
  induction reqs generalizing env with
  | nil => simp [scheduleAll]
  | cons r rest ih =>
    obtain ⟨n, p, t⟩ := r
    simp only [scheduleAll, Env.schedule]
    rw [ih]
    simp [List.range'_succ]

/-! ## Bus lemmas: publish, register, dispatch -/

theorem publish_ok {α : Type} (env : Env α) (n : String) (p : α) (d : Int)
    (hd : 0 ≤ d) :
    env.publish n p d =
      .ok { env with
            queue := env.queue ++ [⟨n, env.now + d, p, env.nextSeq⟩]
            nextSeq := env.nextSeq + 1 } := by
  unfold Env.publish Env.schedule
  rw [if_neg (not_lt.mpr hd)]

theorem publish_error {α : Type} (env : Env α) (n : String) (p : α)
    (d : Int) (hd : d < 0) :
    env.publish n p d = .error "negative delay is a configuration error" := by
  unfold Env.publish
  rw [if_pos hd]

/-- `publish` never touches the dispatch trace, the clock, the
registry or the subscriptions. -/
theorem publish_preserves {α : Type} {env env' : Env α} {n : String}
    {p : α} {d : Int} (h : env.publish n p d = .ok env') :
    env'.trace = env.trace ∧ env'.now = env.now ∧
      env'.subs = env.subs ∧ env'.agents = env.agents := by
  unfold Env.publish Env.schedule at h
  split at h
  · exact absurd h (by simp)
  · injection h with h
    subst h
    exact ⟨rfl, rfl, rfl, rfl⟩

theorem applyPubs_preserves {α : Type} {reqs : List (String × α × Int)}
    {env env' : Env α} (h : env.applyPubs reqs = .ok env') :
    env'.trace = env.trace ∧ env'.now = env.now ∧
      env'.subs = env.subs ∧ env'.agents = env.agents := by
  induction reqs generalizing env with
  | nil =>
    unfold Env.applyPubs at h
    injection h with h
    subst h
    exact ⟨rfl, rfl, rfl, rfl⟩
  | cons r rest ih =>
    obtain ⟨n, p, d⟩ := r
    unfold Env.applyPubs at h
    split at h
    · exact absurd h (by simp)
    · rename_i env1 hp
      have h1 := publish_preserves hp
      have h2 := ih h
      exact ⟨h2.1.trans h1.1, h2.2.1.trans h1.2.1,
             h2.2.2.1.trans h1.2.2.1, h2.2.2.2.trans h1.2.2.2⟩

theorem runHandlers_preserves {α : Type}
    {hs : List (α → Except String (List (String × α × Int)))}
    {env env' : Env α} {p : α} (h : env.runHandlers hs p = .ok env') :
    env'.trace = env.trace ∧ env'.now = env.now ∧
      env'.subs = env.subs ∧ env'.agents = env.agents := by
  induction hs generalizing env with
  | nil =>
    unfold Env.runHandlers at h
    injection h with h
    subst h
    exact ⟨rfl, rfl, rfl, rfl⟩
  | cons f hs ih =>
    unfold Env.runHandlers at h
    split at h
    · exact absurd h (by simp)
    · split at h
      · exact absurd h (by simp)
      · rename_i env1 ha
        have h1 := applyPubs_preserves ha
        have h2 := ih h
        exact ⟨h2.1.trans h1.1, h2.2.1.trans h1.2.1,
               h2.2.2.1.trans h1.2.2.1, h2.2.2.2.trans h1.2.2.2⟩

/-- An empty queue makes `runStep` signal normal completion. -/
theorem runStep_empty {α : Type} (env : Env α) (h : env.queue = []) :
    env.runStep = .ok none := by
  unfold Env.runStep
  rw [h]
  rfl

/-- When `runStep` pops event `e` and succeeds, the dispatch trace is
extended by exactly the popped `(name, payload)` pair: everything the
handlers published went to the queue, nothing was dispatched inline. -/
theorem runStep_trace {α : Type} {env env' : Env α} {e : Event α}
    {rest : List (Event α)} (hpop : pop_next env.queue = some (e, rest))
    (h : env.runStep = .ok (some env')) :
    env'.trace = env.trace ++ [(e.name, e.payload)] ∧
      env'.now = e.timestamp := by
  unfold Env.runStep at h
  rw [hpop] at h
  dsimp only at h
  split at h
  · exact absurd h (by simp)
  · rename_i env2 hr
    injection h with h
    injection h with h
    subst h
    have := runHandlers_preserves hr
    exact ⟨this.1, this.2.1⟩

/-- The run loop on an empty queue returns immediately and normally. -/
theorem run_empty {α : Type} (env : Env α) (fuel : Nat)
    (h : env.queue = []) : env.run fuel = .ok env := by
  cases fuel with
  | zero => rfl
  | succ n =>
    unfold Env.run
    rw [runStep_empty env h]

/-! ## Assigner lemmas -/

theorem pickUniform_nil (r : Nat) : pickUniform r [] = none := rfl

theorem pickUniform_of_ne_nil {pool : List String} (r : Nat)
    (h : pool ≠ []) :
    r % pool.length < pool.length ∧
      pickUniform r pool = pool[r % pool.length]? := by
  have hlen : 0 < pool.length := List.length_pos.mpr h
  exact ⟨Nat.mod_lt _ hlen, by simp [pickUniform, List.isEmpty_iff, h]⟩

theorem pickUniform_isSome_of_ne_nil {pool : List String} (r : Nat)
    (h : pool ≠ []) : (pickUniform r pool).isSome = true := by
  obtain ⟨hlt, heq⟩ := pickUniform_of_ne_nil r h
  rw [heq, List.getElem?_eq_getElem hlt]
  rfl

theorem pickUniform_mem {pool : List String} {r : Nat} {c : String}
    (h : pickUniform r pool = some c) : c ∈ pool := by
  unfold pickUniform at h
  split at h
  · exact absurd h (by simp)
  · exact List.getElem?_mem h

theorem pickUniform_surj {pool : List String} (i : Nat)
    (hi : i < pool.length) : pickUniform i pool = some (pool.get ⟨i, hi⟩) := by
  have h : pool ≠ [] := by
    intro hnil
    rw [hnil] at hi
    simp at hi
  unfold pickUniform
  rw [if_neg (by simp [List.isEmpty_iff, h]), Nat.mod_eq_of_lt hi]
  simp [List.getElem?_eq_getElem hi]

theorem mem_availablePool {c : String} {cs : List (String × Bool)} :
    c ∈ availablePool cs ↔ (c, true) ∈ cs := by
  unfold availablePool
  constructor
  · intro h
    obtain ⟨x, hx, hxc⟩ := List.mem_map.mp h
    obtain ⟨hmem, hav⟩ := List.mem_filter.mp hx
    have : x = (c, true) := by
      obtain ⟨x1, x2⟩ := x
      simp only at hxc hav
      simp [hxc, hav]
    rwa [this] at hmem
  · intro h
    exact List.mem_map.mpr ⟨(c, true), List.mem_filter.mpr ⟨h, rfl⟩, rfl⟩

theorem availablePool_map (cs : List String) (av : String → Bool) :
    availablePool (cs.map fun c => (c, av c)) = cs.filter av := by
  induction cs with
  | nil => rfl
  | cons c cs ih =>
    simp only [availablePool] at ih ⊢
    cases h : av c <;> simp [List.filter_cons, h, ih]

theorem availablePool_snapshot (s : SimState) :
    availablePool s.snapshot = s.couriers.filter s.avail :=
  availablePool_map s.couriers s.avail

/-- A courier returned by `RandomAssigner.assign` on a state snapshot
is marked available in that state. -/
theorem assign_avail {s : SimState} {r : Nat} {o : Order} {c : String}
    (h : RandomAssigner.assign r o s.snapshot = some c) :
    s.avail c = true := by
  unfold RandomAssigner.assign at h
  have hmem := pickUniform_mem h
  rw [availablePool_snapshot] at hmem
  exact (List.mem_filter.mp hmem).2

/-! ## Counting held orders across an update -/

theorem updateOrder_of_find_none (os : List Order) (oid : String)
    (f : Order → Order) (h : os.find? (fun x => x.oid == oid) = none) :
    updateOrder os oid f = os := by
  induction os with
  | nil => rfl
  | cons o os ih =>
    cases hp : (o.oid == oid) with
    | true =>
      have hp' : (fun x : Order => x.oid == oid) o = true := hp
      rw [List.find?_cons_of_pos (p := fun x : Order => x.oid == oid) _ hp'] at h
      exact absurd h (by simp)
    | false =>
      have hp' : ¬ (fun x : Order => x.oid == oid) o = true := by simp [hp]
      rw [List.find?_cons_of_neg (p := fun x : Order => x.oid == oid) _ hp'] at h
      simp [updateOrder, hp, ih h]

theorem countP_updateOrder (os : List Order) (oid : String)
    (f : Order → Order) (p : Order → Bool) (o : Order)
    (h : os.find? (fun x => x.oid == oid) = some o) :
    (updateOrder os oid f).countP p + (if p o then 1 else 0) =
      os.countP p + (if p (f o) then 1 else 0) := by
  induction os with
  | nil => simp [List.find?] at h
  | cons x os ih =>
    cases hp : (x.oid == oid) with
    | true =>
      have hp' : (fun x : Order => x.oid == oid) x = true := hp
      rw [List.find?_cons_of_pos (p := fun x : Order => x.oid == oid) _ hp'] at h
      injection h with h
      subst h
      simp only [updateOrder, hp, if_true, List.countP_cons]
      omega
    | false =>
      have hp' : ¬ (fun x : Order => x.oid == oid) x = true := by simp [hp]
      rw [List.find?_cons_of_neg (p := fun x : Order => x.oid == oid) _ hp'] at h
      simp only [updateOrder, hp, Bool.false_eq_true, if_false,
        List.countP_cons]
      have := ih h
      omega

/-! ## Courier exclusivity -/

theorem heldBy_eq_of_status_created {o : Order}
    (h : o.status = OrderStatus.created) (c : String) : heldBy c o = false := by
  unfold heldBy isActive
  rw [h]
  rfl

theorem heldBy_eq_of_status_rejected {o : Order}
    (h : o.status = OrderStatus.rejected) (c : String) : heldBy c o = false := by
  unfold heldBy isActive
  rw [h]
  rfl

theorem heldBy_eq_of_status_delivered {o : Order}
    (h : o.status = OrderStatus.delivered) (c : String) : heldBy c o = false := by
  unfold heldBy isActive
  rw [h]
  rfl

theorem heldBy_eq_of_active {o : Order}
    (h : o.status = OrderStatus.assigned ∨ o.status = OrderStatus.pickedUp)
    (c : String) : heldBy c o = (o.courier == some c) := by
  unfold heldBy isActive
  rcases h with h | h <;> rw [h] <;> rfl

/-- Each lifecycle step preserves the courier-exclusivity invariant:
assignment flips the chosen courier's `available` flag to false in the
same atomic step, delivery completion flips it back, so an available
courier never holds an unresolved order and no courier holds two. -/
theorem step_Inv (s : SimState) (ev : DEvent) (h : Inv s) :
    Inv (step s ev) := by
  obtain ⟨hAvail, hCount⟩ := h
  cases ev with
  | orderPlaced oid =>
    simp only [step]
    split
    · exact ⟨hAvail, hCount⟩
    · constructor
      · intro c hc
        have h0 := hAvail c hc
        simp only [activeCount] at h0 ⊢
        simp [List.countP_append,
          heldBy_eq_of_status_created (o := ⟨oid, .created, none⟩) rfl c, h0]
      · intro c
        have h1 := hCount c
        simp only [activeCount] at h1 ⊢
        simpa [List.countP_append,
          heldBy_eq_of_status_created (o := ⟨oid, .created, none⟩) rfl c]
          using h1
  | orderReady oid r =>
    simp only [step]
    cases hf : findOrder s oid with
    | none => exact ⟨hAvail, hCount⟩
    | some o =>
      have hfind : s.orders.find? (fun x => x.oid == oid) = some o := hf
      dsimp only
      by_cases hst : o.status = OrderStatus.created
      · rw [if_pos hst]
        cases ha : RandomAssigner.assign r o s.snapshot with
        | none =>
          have hbo := heldBy_eq_of_status_created hst
          have hnew : ∀ c,
              heldBy c { o with status := OrderStatus.rejected } = false :=
            heldBy_eq_of_status_rejected
              (o := { o with status := OrderStatus.rejected }) rfl
          constructor
          · intro c hc
            have h0 := hAvail c hc
            simp only [activeCount] at h0 ⊢
            have key := countP_updateOrder s.orders oid
              (fun x => { x with status := OrderStatus.rejected })
              (heldBy c) o hfind
            simp [hbo c, hnew c] at key
            rw [key]
            exact h0
          · intro c
            have h1 := hCount c
            simp only [activeCount] at h1 ⊢
            have key := countP_updateOrder s.orders oid
              (fun x => { x with status := OrderStatus.rejected })
              (heldBy c) o hfind
            simp [hbo c, hnew c] at key
            rw [key]
            exact h1
        | some c0 =>
          have hbo := heldBy_eq_of_status_created hst
          have havc0 : s.avail c0 = true := assign_avail ha
          have hnew : ∀ c,
              heldBy c { o with status := OrderStatus.assigned,
                                courier := some c0 } = (c0 == c) := fun c =>
            heldBy_eq_of_active
              (o := { o with status := OrderStatus.assigned,
                             courier := some c0 }) (Or.inl rfl) c
          constructor
          · intro c hc
            simp only [activeCount]
            have key := countP_updateOrder s.orders oid
              (fun x => { x with status := OrderStatus.assigned,
                                 courier := some c0 })
              (heldBy c) o hfind
            by_cases hcc : c = c0
            · exfalso
              subst hcc
              simp at hc
            · have hcS : s.avail c = true := by simpa [hcc] using hc
              have h0 := hAvail c hcS
              simp only [activeCount] at h0
              have hne : (c0 == c) = false :=
                beq_eq_false_iff_ne.mpr (fun hh => hcc hh.symm)
              simp [hbo c, hnew c, hne] at key
              rw [key]
              exact h0
          · intro c
            simp only [activeCount]
            have key := countP_updateOrder s.orders oid
              (fun x => { x with status := OrderStatus.assigned,
                                 courier := some c0 })
              (heldBy c) o hfind
            by_cases hcc : c = c0
            · subst hcc
              have h0 := hAvail c havc0
              simp only [activeCount] at h0
              simp [hbo c, hnew c] at key
              omega
            · have hne : (c0 == c) = false :=
                beq_eq_false_iff_ne.mpr (fun hh => hcc hh.symm)
              have h1 := hCount c
              simp only [activeCount] at h1
              simp [hbo c, hnew c, hne] at key
              omega
      · rw [if_neg hst]
        exact ⟨hAvail, hCount⟩
  | pickedUp oid =>
    simp only [step]
    cases hf : findOrder s oid with
    | none => exact ⟨hAvail, hCount⟩
    | some o =>
      have hfind : s.orders.find? (fun x => x.oid == oid) = some o := hf
      dsimp only
      by_cases hst : o.status = OrderStatus.assigned
      · rw [if_pos hst]
        have hbo := heldBy_eq_of_active (Or.inl hst)
        have hnew : ∀ c, heldBy c { o with status := OrderStatus.pickedUp } =
            (o.courier == some c) := fun c =>
          heldBy_eq_of_active
            (o := { o with status := OrderStatus.pickedUp }) (Or.inr rfl) c
        constructor
        · intro c hc
          have h0 := hAvail c hc
          simp only [activeCount] at h0 ⊢
          have key := countP_updateOrder s.orders oid
            (fun x => { x with status := OrderStatus.pickedUp })
            (heldBy c) o hfind
          simp only [hbo c, hnew c] at key
          omega
        · intro c
          have h1 := hCount c
          simp only [activeCount] at h1 ⊢
          have key := countP_updateOrder s.orders oid
            (fun x => { x with status := OrderStatus.pickedUp })
            (heldBy c) o hfind
          simp only [hbo c, hnew c] at key
          omega
      · rw [if_neg hst]
        exact ⟨hAvail, hCount⟩
  | orderDelivered oid =>
    simp only [step]
    cases hf : findOrder s oid with
    | none => exact ⟨hAvail, hCount⟩
    | some o =>
      have hfind : s.orders.find? (fun x => x.oid == oid) = some o := hf
      dsimp only
      by_cases hst : o.status = OrderStatus.pickedUp
      · rw [if_pos hst]
        have hbo := heldBy_eq_of_active (Or.inr hst)
        have hnew : ∀ c,
            heldBy c { o with status := OrderStatus.delivered } = false :=
          heldBy_eq_of_status_delivered
            (o := { o with status := OrderStatus.delivered }) rfl
        cases hco : o.courier with
        | none =>
          constructor
          · intro c hc
            have h0 := hAvail c hc
            simp only [activeCount] at h0 ⊢
            have key := countP_updateOrder s.orders oid
              (fun x => { x with status := OrderStatus.delivered })
              (heldBy c) o hfind
            have hb0 : heldBy c o = false := by rw [hbo c, hco]; rfl
            simp [hb0, hnew c] at key
            rw [key]
            exact h0
          · intro c
            have h1 := hCount c
            simp only [activeCount] at h1 ⊢
            have key := countP_updateOrder s.orders oid
              (fun x => { x with status := OrderStatus.delivered })
              (heldBy c) o hfind
            have hb0 : heldBy c o = false := by rw [hbo c, hco]; rfl
            simp [hb0, hnew c] at key
            rw [key]
            exact h1
        | some c0 =>
          constructor
          · intro c hc
            simp only [activeCount]
            have key := countP_updateOrder s.orders oid
              (fun x => { x with status := OrderStatus.delivered })
              (heldBy c) o hfind
            by_cases hcc : c = c0
            · subst hcc
              have hb1 : heldBy c o = true := by
                rw [hbo c, hco]
                exact beq_self_eq_true c
              simp [hb1, hnew c] at key
              have h1 := hCount c
              simp only [activeCount] at h1
              omega
            · have hne : c0 ≠ c := fun hh => hcc hh.symm
              have hb0 : heldBy c o = false := by
                rw [hbo c, hco]
                simp [hne]
              have hcS : s.avail c = true := by simpa [hcc] using hc
              have h0 := hAvail c hcS
              simp only [activeCount] at h0
              simp [hb0, hnew c] at key
              rw [key]
              exact h0
          · intro c
            simp only [activeCount]
            have key := countP_updateOrder s.orders oid
              (fun x => { x with status := OrderStatus.delivered })
              (heldBy c) o hfind
            have h1 := hCount c
            simp only [activeCount] at h1
            by_cases hcc : c = c0
            · subst hcc
              have hb1 : heldBy c o = true := by
                rw [hbo c, hco]
                exact beq_self_eq_true c
              simp [hb1, hnew c] at key
              omega
            · have hne : c0 ≠ c := fun hh => hcc hh.symm
              have hb0 : heldBy c o = false := by
                rw [hbo c, hco]
                simp [hne]
              simp [hb0, hnew c] at key
              omega
      · rw [if_neg hst]
        exact ⟨hAvail, hCount⟩

/-- The invariant holds in every reachable state of every run. -/
theorem foldl_step_Inv (evs : List DEvent) (s : SimState) (h : Inv s) :
    Inv (evs.foldl step s) := by
  induction evs generalizing s with
  | nil => exact h
  | cons e es ih => exact ih _ (step_Inv s e h)

/-- The initial state satisfies the invariant. -/
theorem initState_Inv (cs : List String) : Inv (initState cs) :=
  ⟨fun _ _ => rfl, fun _ => Nat.le_succ 0⟩

/-! ## Metrics lemmas -/

theorem DeliveryTime_foldl (evs : List MEvent) (m : DeliveryTime) :
    (evs.foldl DeliveryTime.handle m).samples =
      m.samples ++ evs.filterMap deliverySample := by
  induction evs generalizing m with
  | nil => simp
  | cons e es ih =>
    cases e <;>
      simp [DeliveryTime.handle, deliverySample, ih, List.filterMap_cons]

theorem NumberOfOrdersDelivered_foldl (evs : List MEvent)
    (m : NumberOfOrdersDelivered) :
    (evs.foldl NumberOfOrdersDelivered.handle m).count =
      m.count + evs.countP isOrderDelivered := by
  induction evs generalizing m with
  | nil => simp
  | cons e es ih =>
    cases e <;>
      simp [NumberOfOrdersDelivered.handle, isOrderDelivered, ih,
        List.countP_cons]
    omega

theorem length_filterMap_deliverySample (evs : List MEvent) :
    (evs.filterMap deliverySample).length = evs.countP isOrderDelivered := by
  induction evs with
  | nil => rfl
  | cons e es ih =>
    cases e <;>
      simp [deliverySample, isOrderDelivered, List.countP_cons, ih,
        List.filterMap_cons]

/-! ## The claims -/

/-- C1: events are dispatched in non-decreasing timestamp order with
FIFO tie-break for equal timestamps: `pop_next` always removes a
minimum-`(timestamp, sequence_number)`-keyed event, `schedule` assigns
the monotonically increasing sequence counter at insertion time
(event scheduled k-th gets sequence number k), and draining a queue by
repeated `pop_next` yields a permutation of it sorted by the
`(timestamp, sequence_number)` key. -/
theorem C1_dispatch_order (α : Type) :
    (∀ (q : List (Event α)) (e : Event α) (rest : List (Event α)),
        pop_next q = some (e, rest) →
          q.Perm (e :: rest) ∧ ∀ y ∈ rest, keyLE e y) ∧
    (∀ reqs : List (String × α × Int),
        (scheduleAll (Env.empty α) reqs).queue.map Event.seq =
          List.range reqs.length) ∧
    (∀ q : List (Event α), (drain q).Perm q ∧ List.Sorted keyLE (drain q)) := by
  refine ⟨fun q e rest h => ⟨pop_next_perm h, pop_next_min h⟩,
    fun reqs => ?_, fun q => ⟨drain_perm q, drain_sorted q⟩⟩
  rw [scheduleAll_seq]
  simp [Env.empty, List.range_eq_range']

/-- Witness for C1 at a concrete queue: among `[evA, evB, evC]` (with
`evB`, `evC` tied at timestamp 3 and `evA` later at 5), `pop_next`
removes `evB` — earliest timestamp, smallest sequence number — and the
removed event's key is below the remaining `evA`. -/
theorem C1_dispatch_order_witness :
    [evA, evB, evC].Perm (evB :: [evA, evC]) ∧ keyLE evB evA := by
  have h := (C1_dispatch_order String).1 [evA, evB, evC] evB [evA, evC] rfl
  exact ⟨h.1, h.2 evA (by simp)⟩

/-- C2: in every reachable state of every run, each courier id is
assigned to at most one unresolved (assigned-or-picked-up) order, and
a courier whose `available` flag is true holds none — the flag flips
to false atomically with assignment and back to true only on delivery
completion. -/
theorem C2_courier_exclusive (cs : List String) (evs : List DEvent) :
    (∀ c, activeCount (evs.foldl step (initState cs)) c ≤ 1) ∧
    (∀ c, (evs.foldl step (initState cs)).avail c = true →
        activeCount (evs.foldl step (initState cs)) c = 0) := by
  have h := foldl_step_Inv evs (initState cs) (initState_Inv cs)
  exact ⟨h.2, h.1⟩

/-- Witness for C2 on a concrete run: two couriers, one order going
through its full lifecycle; the delivering courier ends available with
no unresolved order. -/
theorem C2_courier_exclusive_witness :
    activeCount ([DEvent.orderPlaced "o1", DEvent.orderReady "o1" 0,
      DEvent.pickedUp "o1", DEvent.orderDelivered "o1"].foldl step
      (initState ["k", "l"])) "k" ≤ 1 ∧
    activeCount ([DEvent.orderPlaced "o1", DEvent.orderReady "o1" 0,
      DEvent.pickedUp "o1", DEvent.orderDelivered "o1"].foldl step
      (initState ["k", "l"])) "k" = 0 :=
  ⟨(C2_courier_exclusive ["k", "l"] [DEvent.orderPlaced "o1",
      DEvent.orderReady "o1" 0, DEvent.pickedUp "o1",
      DEvent.orderDelivered "o1"]).1 "k",
   (C2_courier_exclusive ["k", "l"] [DEvent.orderPlaced "o1",
      DEvent.orderReady "o1" 0, DEvent.pickedUp "o1",
      DEvent.orderDelivered "o1"]).2 "k" (by decide)⟩

/-- C3: every publish, including zero-delay, only enqueues — the
publishing call returns with the queue extended and the dispatch trace
untouched, no handler invoked — and one run-loop iteration dispatches
exactly the popped event: handlers' publishes land in the queue, never
in the trace of the same step. -/
theorem C3_publish_not_inline (α : Type) :
    (∀ (env : Env α) (n : String) (p : α) (d : Int), 0 ≤ d →
        env.publish n p d =
          .ok { env with
                queue := env.queue ++ [⟨n, env.now + d, p, env.nextSeq⟩]
                nextSeq := env.nextSeq + 1 }) ∧
    (∀ (env env' : Env α) (e : Event α) (rest : List (Event α)),
        pop_next env.queue = some (e, rest) →
        env.runStep = .ok (some env') →
          env'.trace = env.trace ++ [(e.name, e.payload)]) :=
  ⟨fun env n p d hd => publish_ok env n p d hd,
   fun _ _ _ _ hpop hstep => (runStep_trace hpop hstep).1⟩

/-- Witness for C3: a zero-delay publish on the empty environment only
enqueues, and the run-loop step that dispatches the tutorial's seeded
`Meow` event extends the trace by exactly that pair. -/
theorem C3_publish_not_inline_witness :
    (Env.empty String).publish "E" "p" 0 =
      .ok { Env.empty String with
            queue := (Env.empty String).queue ++
              [⟨"E", (Env.empty String).now + 0, "p",
                (Env.empty String).nextSeq⟩]
            nextSeq := (Env.empty String).nextSeq + 1 } ∧
    steppedEnv.trace = seededEnv.trace ++ [("Meow", "Grumpy")] :=
  ⟨(C3_publish_not_inline String).1 (Env.empty String) "E" "p" 0 le_rfl,
   (C3_publish_not_inline String).2 seededEnv steppedEnv
     ⟨"Meow", 0, "Grumpy", 0⟩ [] rfl rfl⟩

/-- C4 counterexample, straight from tutorial page 1: `cat.meow()`
publishes `Meow` before `env.run()` is ever called, the call succeeds
and enqueues the event, and the subsequent run dispatches it —
reproducing the notebook's recorded output
`[('Meow', 'Grumpy'), ('Woof', 'Pavlov')]`.  This refutes the claim
that a publish made before the run loop begins fails rather than
enqueueing. -/
theorem C4_counterexample :
    tutorialEnv.publish "Meow" "Grumpy" 0 = .ok seededEnv ∧
    seededEnv.queue.map (fun e => (e.name, e.payload)) =
      [("Meow", "Grumpy")] ∧
    seededEnv.run 10 = .ok finalEnv ∧
    finalEnv.trace = [("Meow", "Grumpy"), ("Woof", "Pavlov")] :=
  ⟨rfl, rfl, rfl, rfl⟩

/-- C4 (amended): publishing before `run()` has started is not an
error but the supported way a driver seeds the queue: for any
environment state and non-negative delay the publish succeeds,
enqueueing the event at `current_simulated_time + delay` without
touching the dispatch trace; the event is dispatched once the run loop
starts.  (The fatal configuration errors at the call site are negative
delay, and duplicate identity at registration.) -/
theorem C4_publish_seeds_queue (α : Type) (env : Env α) (n : String)
    (p : α) (d : Int) (hd : 0 ≤ d) :
    ∃ env', env.publish n p d = .ok env' ∧
      env'.queue = env.queue ++ [⟨n, env.now + d, p, env.nextSeq⟩] ∧
      env'.trace = env.trace := by
  refine ⟨_, publish_ok env n p d hd, rfl, rfl⟩

/-- Witness for C4 (amended): seeding the empty environment. -/
theorem C4_publish_seeds_queue_witness :
    ∃ env', (Env.empty String).publish "S" "x" 0 = .ok env' ∧
      env'.queue = (Env.empty String).queue ++
        [⟨"S", (Env.empty String).now + 0, "x",
          (Env.empty String).nextSeq⟩] ∧
      env'.trace = (Env.empty String).trace :=
  C4_publish_seeds_queue String (Env.empty String) "S" "x" 0 le_rfl

/-- C5: every `TimeDist` draw, whatever the configured family,
parameters and unit, is a non-negative duration once converted to the
simulation time unit. -/
theorem C5_sample_nonneg (d : TimeDist) (raw : ℚ) : 0 ≤ d.sample raw := by
  unfold TimeDist.sample
  apply mul_nonneg
  · cases h : d.unit <;> norm_num [TimeUnit.factor]
  · exact le_max_right raw 0

/-- C6: `publish` computes `timestamp = current_simulated_time +
delay`; a negative delay is rejected as a fatal configuration error at
the call site, and with the enforced `delay ≥ 0` the new event lands
at or after the current tick, so a negative timestamp is unreachable
whenever the clock is non-negative. -/
theorem C6_publish_timestamp (α : Type) (env : Env α) (n : String)
    (p : α) (d : Int) :
    (d < 0 →
        env.publish n p d =
          .error "negative delay is a configuration error") ∧
    (0 ≤ d → ∃ env', env.publish n p d = .ok env' ∧
        env'.queue = env.queue ++ [⟨n, env.now + d, p, env.nextSeq⟩] ∧
        env.now ≤ env.now + d ∧
        (0 ≤ env.now → 0 ≤ env.now + d)) := by
  constructor
  · intro hd
    exact publish_error env n p d hd
  · intro hd
    exact ⟨_, publish_ok env n p d hd, rfl, by omega, by omega⟩

/-- Witness for C6: a delay of −1 is rejected; a delay of 2 from the
empty environment (clock at 0) lands at timestamp 2 ≥ 0. -/
theorem C6_publish_timestamp_witness :
    (Env.empty String).publish "E" "p" (-1) =
      .error "negative delay is a configuration error" ∧
    ∃ env', (Env.empty String).publish "E" "p" 2 = .ok env' ∧
      env'.queue = (Env.empty String).queue ++
        [⟨"E", (Env.empty String).now + 2, "p",
          (Env.empty String).nextSeq⟩] ∧
      (Env.empty String).now ≤ (Env.empty String).now + 2 ∧
      (0 ≤ (Env.empty String).now → 0 ≤ (Env.empty String).now + 2) :=
  ⟨(C6_publish_timestamp String (Env.empty String) "E" "p" (-1)).1
      (by norm_num),
   (C6_publish_timestamp String (Env.empty String) "E" "p" 2).2
      (by norm_num)⟩

/-- C7: `register` stores a fresh agent id and appends its
`subscribe()` bindings exactly once; an already-registered identity is
rejected with a fatal configuration error. -/
theorem C7_register (α : Type) (env : Env α) (a : Agent α) :
    (env.agents.contains a.id = false →
        env.register a =
          .ok { env with
                agents := env.agents ++ [a.id]
                subs := env.subs ++
                  a.subscriptions.map (fun s => (s.1, a.id, s.2)) }) ∧
    (env.agents.contains a.id = true →
        env.register a =
          .error "re-registering an agent id is a configuration error") := by
  constructor
  · intro h
    unfold Env.register
    rw [if_neg (by rw [h]; simp)]
  · intro h
    unfold Env.register
    rw [if_pos h]

/-- Witness for C7: registering the cat on the empty environment
succeeds and installs its binding once; registering it again on the
tutorial environment (where `Grumpy` is taken) is rejected. -/
theorem C7_register_witness :
    (Env.empty String).register catAgent =
      .ok { Env.empty String with
            agents := (Env.empty String).agents ++ [catAgent.id]
            subs := (Env.empty String).subs ++
              catAgent.subscriptions.map
                (fun s => (s.1, catAgent.id, s.2)) } ∧
    tutorialEnv.register catAgent =
      .error "re-registering an agent id is a configuration error" :=
  ⟨(C7_register String (Env.empty String) catAgent).1 rfl,
   (C7_register String tutorialEnv catAgent).2 rfl⟩

/-- C8: the `RandomAssigner` returns `none` exactly on an empty pool
of available couriers; otherwise it indexes the pool by the random
draw modulo the pool size, every courier it returns is one marked
available in the snapshot, and every available courier is returned
for some draw. -/
theorem C8_random_assigner (r : Nat) (o : Order)
    (cs : List (String × Bool)) :
    (availablePool cs = [] → RandomAssigner.assign r o cs = none) ∧
    (availablePool cs ≠ [] →
        r % (availablePool cs).length < (availablePool cs).length ∧
        RandomAssigner.assign r o cs =
          (availablePool cs)[r % (availablePool cs).length]?) ∧
    (∀ c, RandomAssigner.assign r o cs = some c → (c, true) ∈ cs) ∧
    (∀ i (hi : i < (availablePool cs).length),
        RandomAssigner.assign i o cs =
          some ((availablePool cs).get ⟨i, hi⟩)) := by
  refine ⟨?_, ?_, ?_, ?_⟩
  · intro h
    unfold RandomAssigner.assign
    rw [h]
    rfl
  · intro h
    exact pickUniform_of_ne_nil r h
  · intro c h
    exact mem_availablePool.mp (pickUniform_mem h)
  · intro i hi
    exact pickUniform_surj i hi

/-- Witness for C8 on the snapshot `[("a", false), ("b", true),
("c", true)]` (pool `["b", "c"]`): draw 3 picks index 3 % 2 = 1, and
draw 0 picks `"b"`. -/
theorem C8_random_assigner_witness :
    (3 % (availablePool [("a", false), ("b", true), ("c", true)]).length <
        (availablePool [("a", false), ("b", true), ("c", true)]).length ∧
      RandomAssigner.assign 3 ordEx [("a", false), ("b", true), ("c", true)] =
        (availablePool [("a", false), ("b", true), ("c", true)])[3 %
          (availablePool [("a", false), ("b", true), ("c", true)]).length]?) ∧
    RandomAssigner.assign 0 ordEx [("a", false), ("b", true), ("c", true)] =
      some ((availablePool [("a", false), ("b", true), ("c", true)]).get
        ⟨0, by decide⟩) :=
  ⟨(C8_random_assigner 3 ordEx [("a", false), ("b", true), ("c", true)]).2.1
      (by decide),
   (C8_random_assigner 0 ordEx
      [("a", false), ("b", true), ("c", true)]).2.2.2 0 (by decide)⟩

/-- C9: over any completed run, `NumberOfOrdersDelivered` counts
exactly the `OrderDelivered` events, `DeliveryTime` accumulates the
`(delivered_at - created_at)` samples and reports their mean, and
`get_results` returns the name → value mapping of both. -/
theorem C9_metrics (evs : List MEvent) :
    (evs.foldl NumberOfOrdersDelivered.handle ⟨0⟩).count =
      evs.countP isOrderDelivered ∧
    (evs.foldl DeliveryTime.handle ⟨[]⟩).samples =
      evs.filterMap deliverySample ∧
    (evs.foldl DeliveryTime.handle ⟨[]⟩).result =
      (evs.filterMap deliverySample).sum /
        (evs.countP isOrderDelivered : ℚ) ∧
    get_results (evs.foldl DeliveryTime.handle ⟨[]⟩)
        (evs.foldl NumberOfOrdersDelivered.handle ⟨0⟩) =
      [("DeliveryTime",
        (evs.filterMap deliverySample).sum /
          (evs.countP isOrderDelivered : ℚ)),
       ("NumberOfOrdersDelivered", (evs.countP isOrderDelivered : ℚ))] := by
  have hn : (evs.foldl NumberOfOrdersDelivered.handle ⟨0⟩).count =
      evs.countP isOrderDelivered := by
    rw [NumberOfOrdersDelivered_foldl]
    simp
  have hs : (evs.foldl DeliveryTime.handle ⟨[]⟩).samples =
      evs.filterMap deliverySample := by
    rw [DeliveryTime_foldl]
    rfl
  have hr : (evs.foldl DeliveryTime.handle ⟨[]⟩).result =
      (evs.filterMap deliverySample).sum /
        (evs.countP isOrderDelivered : ℚ) := by
    unfold DeliveryTime.result
    rw [hs, length_filterMap_deliverySample]
  exact ⟨hn, hs, hr, by unfold get_results; rw [hn, hr]⟩

/-- C10: queue exhaustion is normal completion: `pop_next` on the
empty queue signals `none` rather than an error, and the run loop on
an empty queue returns its environment normally, with the dispatched
`(event_name, payload)` trace it accumulated. -/
theorem C10_empty_queue_normal (α : Type) :
    pop_next ([] : List (Event α)) = none ∧
    ∀ (env : Env α) (fuel : Nat), env.queue = [] →
      env.run fuel = .ok env :=
  ⟨rfl, fun env fuel h => run_empty env fuel h⟩

/-- Witness for C10: the empty environment runs to normal completion
immediately. -/
theorem C10_empty_queue_normal_witness :
    pop_next ([] : List (Event String)) = none ∧
    (Env.empty String).run 5 = .ok (Env.empty String) :=
  ⟨(C10_empty_queue_normal String).1,
   (C10_empty_queue_normal String).2 (Env.empty String) 5 rfl⟩

end JustSimulate
